/-
Verification of core components of the cryptoscope/sbot SSB peer.

Shallow embedding of the Go sources:
  * `private/box2/encoding.go`   — SLP length-prefixed list encoding
  * `blobstore/store.go`         — content-addressed blob store, want manager,
                                   per-peer want processes
  * `sbot/replicate.go`          — graph replicator / admission lister
  * `multilogs/userfeeds.go`     — per-author sublog sink index
  * `sbot/manifest.go`           — hardcoded RPC manifest
  * `plugins2/names/getSignifier.go` — about-name resolution handler
  * `message/legacy/types.go`    — legacy message signing and hashing

Go byte slices are modelled as `List Nat` (each element a byte value), Go
maps as association lists with Go's assignment/deletion semantics, and the
filesystem as an association list from path segments to file contents.
External cryptographic primitives (SHA-256, Ed25519, HMAC, the v8-style
canonicalizer) live outside this repository and are taken as function
parameters of the definitions that call them.
-/

import Mathlib

set_option autoImplicit false

/-- Byte strings (Go `[]byte`): lists of byte values. -/
abbrev Bytes := List Nat

namespace box2

/-- Go `encodeUint16` from `private/box2/encoding.go`: appends the little-endian
encoding of a uint16 (low byte first) to `out`.  The argument is already a
uint16 value, i.e. `< 2^16`; `binary.LittleEndian.PutUint16` writes
`l % 256` then `(l / 256) % 256`. -/
def encodeUint16 (out : Bytes) (l : Nat) : Bytes :=
  out ++ [l % 256, (l / 256) % 256]

/-- Go `EncodeSLP` from `private/box2/encoding.go`: for each element of the
list, appends the element's length as a uint16 (Go's `uint16(len(elem))`
truncates mod `2^16`) followed by the element's bytes. -/
def EncodeSLP (out : Bytes) (list : List Bytes) : Bytes :=
  list.foldl (fun o elem => encodeUint16 o (elem.length % 65536) ++ elem) out

/-- The shape of a single SLP item for an element shorter than `2^16`:
little-endian uint16 length, then the bytes. -/
def slpItem (elem : Bytes) : Bytes :=
  [elem.length % 256, elem.length / 256] ++ elem

theorem EncodeSLP_cons (out : Bytes) (e : Bytes) (rest : List Bytes) :
    EncodeSLP out (e :: rest) = EncodeSLP (encodeUint16 out (e.length % 65536) ++ e) rest := rfl

theorem EncodeSLP_append (out : Bytes) (list : List Bytes)
    (h : ∀ e ∈ list, e.length < 65536) :
    EncodeSLP out list = out ++ (list.map slpItem).flatten := by
  induction list generalizing out with
  | nil => simp [EncodeSLP]
  | cons e rest ih =>
      have he : e.length < 65536 := h e (by simp)
      have hdiv : e.length / 256 < 256 := by omega
      rw [EncodeSLP_cons, ih _ (fun x hx => h x (by simp [hx]))]
      simp only [List.map_cons, List.flatten, encodeUint16, slpItem]
      rw [Nat.mod_eq_of_lt he, Nat.mod_eq_of_lt hdiv]
      simp [List.append_assoc]

end box2

/-- C9: For every list of byte strings, each shorter than `2^16` bytes,
`EncodeSLP` appends to `out`, for each element in order, exactly the
element's length as a little-endian uint16 followed by the element's bytes;
an empty list appends nothing. -/
theorem C9_encodeSLP_spec (out : Bytes) (list : List Bytes)
    (h : ∀ e ∈ list, e.length < 65536) :
    box2.EncodeSLP out list =
      out ++ (list.map box2.slpItem).flatten ∧
    box2.EncodeSLP out [] = out := by
  exact ⟨box2.EncodeSLP_append out list h, rfl⟩

/-- Witness for C9 at a concrete input: two elements of lengths 3 and 1. -/
theorem C9_encodeSLP_spec_witness :
    box2.EncodeSLP [9] [[1, 2, 3], [7]] =
      [9] ++ ([[1, 2, 3], [7]].map box2.slpItem).flatten ∧
    box2.EncodeSLP [9] [] = [9] :=
  C9_encodeSLP_spec [9] [[1, 2, 3], [7]] (by decide)

/-! Section: Go maps as association lists -/

/-- A Go `map[K]V`, modelled as an association list with at most one
binding per key: assignment replaces any existing binding, deletion
removes it. -/
abbrev GoMap (K V : Type) := List (K × V)

namespace GoMap

variable {K V : Type} [DecidableEq K]

/-- The empty map (`make(map[K]V)`). -/
def empty {K V : Type} : GoMap K V := []

/-- Map indexing `m[k]` together with its presence bit. -/
def lookup : GoMap K V → K → Option V
  | [], _ => none
  | (k, v) :: rest, k' => if k' = k then some v else lookup rest k'

/-- Deletion `delete(m, k)`: drops every binding of `k`. -/
def erase : GoMap K V → K → GoMap K V
  | [], _ => []
  | (k0, v) :: rest, k => if k0 = k then erase rest k else (k0, v) :: erase rest k

/-- Assignment `m[k] = v`. -/
def set (m : GoMap K V) (k : K) (v : V) : GoMap K V :=
  (k, v) :: erase m k

theorem lookup_erase (m : GoMap K V) (k k' : K) :
    lookup (erase m k) k' = if k' = k then none else lookup m k' := by
  induction m with
  | nil => simp [erase, lookup]
  | cons p rest ih =>
      obtain ⟨k0, v0⟩ := p
      by_cases h0 : k0 = k
      · subst h0
        by_cases h1 : k' = k0
        · subst h1
          simp [erase, lookup, ih]
        · simp [erase, lookup, h1, ih]
      · by_cases h1 : k' = k0
        · subst h1
          simp [erase, lookup, h0]
        · simp [erase, lookup, h0, h1, ih]

theorem lookup_set (m : GoMap K V) (k k' : K) (v : V) :
    lookup (set m k v) k' = if k' = k then some v else lookup m k' := by
  by_cases h : k' = k
  · simp [set, lookup, h]
  · simp [set, lookup, h, lookup_erase]

theorem lookup_set_self (m : GoMap K V) (k : K) (v : V) :
    lookup (set m k v) k = some v := by simp [lookup_set]

theorem lookup_erase_self (m : GoMap K V) (k : K) :
    lookup (erase m k) k = none := by simp [lookup_erase]

theorem lookup_set_ne (m : GoMap K V) (k k' : K) (v : V) (h : k' ≠ k) :
    lookup (set m k v) k' = lookup m k' := by simp [lookup_set, h]

theorem lookup_erase_ne (m : GoMap K V) (k k' : K) (h : k' ≠ k) :
    lookup (erase m k) k' = lookup m k' := by simp [lookup_erase, h]

end GoMap

/-! Section: Blob store (`blobstore/store.go`) -/

namespace blobstore

/-- Go `refs.BlobRef`: an algorithm name and the raw hash bytes.  Go keys
maps by the encoded ref string `ref.Ref()`, which is injective in
`(Algo, Hash)`; here maps are keyed by the reference itself. -/
structure BlobRef where
  hash : Bytes
  algo : String
deriving DecidableEq, Repr

/-- Go `ref.IsValid()` from ssb-refs: the sha256 algorithm with a 32-byte
digest. -/
def BlobRef.isValid (r : BlobRef) : Bool :=
  r.algo = "sha256" && r.hash.length = 32

/-- One lowercase hex digit. -/
def hexDigit (n : Nat) : Char :=
  if n < 10 then Char.ofNat (48 + n) else Char.ofNat (87 + n)

/-- Go `hex.EncodeToString`: two lowercase hex digits per byte. -/
def hexEncode (bs : Bytes) : String :=
  String.mk ((bs.map (fun b => [hexDigit (b / 16 % 16), hexDigit (b % 16)])).flatten)

/-- A filesystem path, as the list of segments joined by `filepath.Join`. -/
abbrev Path := List String

/-- The filesystem: contents of regular files by path. -/
abbrev FS := GoMap Path Bytes

/-- Go `blobStore.getPath`: `<base>/<algo>/<hh>/<rest>` where `hh` is the
first two hex digits of the hash; errors on an invalid reference. -/
def getPath (basePath : String) (r : BlobRef) : Except String Path :=
  if r.isValid then
    .ok [basePath, r.algo, (hexEncode r.hash).take 2, (hexEncode r.hash).drop 2]
  else
    .error "blobs: invalid reference"

/-- Go `blobStore.getHexDirPath`: the containing directory `<base>/<algo>/<hh>`. -/
def getHexDirPath (basePath : String) (r : BlobRef) : Except String Path :=
  if r.isValid then
    .ok [basePath, r.algo, (hexEncode r.hash).take 2]
  else
    .error "blobs: invalid reference"

/-- Go `blobStore.getTmpPath`: `<base>/tmp/<nanos>`. -/
def getTmpPath (basePath : String) (nanos : Nat) : Path :=
  [basePath, "tmp", toString nanos]

/-- Store-level errors distinguished by the callers: `ErrNoSuchBlob`
versus an invalid-reference error from `getPath`. -/
inductive StoreErr
  | noSuchBlob
  | invalidRef
deriving DecidableEq, Repr

/-- Go `blobStore.Get`: resolve the path and read the file. -/
def get (basePath : String) (fs : FS) (r : BlobRef) : Except StoreErr Bytes :=
  match getPath basePath r with
  | .error _ => .error .invalidRef
  | .ok p =>
      match fs.lookup p with
      | some bytes => .ok bytes
      | none => .error .noSuchBlob

/-- Go `blobStore.Size`: resolve the path and stat the file. -/
def size (basePath : String) (fs : FS) (r : BlobRef) : Except StoreErr Nat :=
  match getPath basePath r with
  | .error _ => .error .invalidRef
  | .ok p =>
      match fs.lookup p with
      | some bytes => .ok bytes.length
      | none => .error .noSuchBlob

/-- Go `ssb.BlobStoreOp`. -/
inductive BlobStoreOp
  | put
  | rm
deriving DecidableEq, Repr

/-- Go `ssb.BlobStoreNotification`, poured into the store's broadcast. -/
structure BlobStoreNotification where
  op : BlobStoreOp
  ref : BlobRef
deriving DecidableEq, Repr

/-- Result of `blobStore.Put`: the returned reference, the filesystem
after the rename, and the notifications poured into the broadcast. -/
structure PutResult where
  ref : BlobRef
  fs : FS
  notifs : List BlobStoreNotification

/-- Go `blobStore.Put`, parameterized by the SHA-256 function (external
`crypto/sha256`): write the stream to `tmp/<nanos>` while hashing it,
build the `sha256` reference from the digest, rename the tmp file to the
content-addressed path, and pour a `BlobStoreOpPut` notification. -/
def put (sha256 : Bytes → Bytes) (basePath : String) (fs : FS)
    (nanos : Nat) (blob : Bytes) : Except String PutResult :=
  let tmpPath := getTmpPath basePath nanos
  let fs1 := fs.set tmpPath blob
  let ref : BlobRef := ⟨sha256 blob, "sha256"⟩
  match getHexDirPath basePath ref with
  | .error e => .error e
  | .ok _ =>
      match getPath basePath ref with
      | .error e => .error e
      | .ok finalPath =>
          let fs2 := (fs1.erase tmpPath).set finalPath blob
          .ok ⟨ref, fs2, [⟨.put, ref⟩]⟩

end blobstore

/-- C2: `BlobStore.Put` stages the stream at `tmp/<nanos>`, hashes it with
SHA-256, renames the file to `sha256/<hh>/<rest>` (first two hex digits of
the digest, then the rest), and returns a `sha256` reference carrying the
computed digest together with a `BlobStoreOpPut` notification; afterwards
the bytes at the visible path of the returned reference hash back to
exactly that reference and the tmp file is gone. -/
theorem C2_blobstore_put_content_addressed
    (sha256 : Bytes → Bytes) (basePath : String) (fs : blobstore.FS)
    (nanos : Nat) (blob : Bytes) (hlen : (sha256 blob).length = 32) :
    ∃ (ref : blobstore.BlobRef) (fs' : blobstore.FS),
      blobstore.put sha256 basePath fs nanos blob = .ok ⟨ref, fs', [⟨.put, ref⟩]⟩ ∧
      ref.algo = "sha256" ∧
      ref.hash = sha256 blob ∧
      blobstore.getPath basePath ref =
        .ok [basePath, "sha256", (blobstore.hexEncode (sha256 blob)).take 2,
             (blobstore.hexEncode (sha256 blob)).drop 2] ∧
      fs'.lookup [basePath, "sha256", (blobstore.hexEncode (sha256 blob)).take 2,
             (blobstore.hexEncode (sha256 blob)).drop 2] = some blob ∧
      (∀ p b, blobstore.getPath basePath ref = .ok p → fs'.lookup p = some b →
          sha256 b = ref.hash) ∧
      fs'.lookup (blobstore.getTmpPath basePath nanos) = none := by
  have hvalid : blobstore.BlobRef.isValid ⟨sha256 blob, "sha256"⟩ = true := by
    simp [blobstore.BlobRef.isValid, hlen]
  have hput : blobstore.put sha256 basePath fs nanos blob =
      .ok ⟨⟨sha256 blob, "sha256"⟩,
           (((fs.set (blobstore.getTmpPath basePath nanos) blob).erase
               (blobstore.getTmpPath basePath nanos)).set
             [basePath, "sha256", (blobstore.hexEncode (sha256 blob)).take 2,
              (blobstore.hexEncode (sha256 blob)).drop 2] blob),
           [⟨.put, ⟨sha256 blob, "sha256"⟩⟩]⟩ := by
    simp [blobstore.put, blobstore.getHexDirPath, blobstore.getPath, hvalid]
  have hgetPath : blobstore.getPath basePath ⟨sha256 blob, "sha256"⟩ =
      .ok [basePath, "sha256", (blobstore.hexEncode (sha256 blob)).take 2,
           (blobstore.hexEncode (sha256 blob)).drop 2] := by
    simp [blobstore.getPath, hvalid]
  have hne : blobstore.getTmpPath basePath nanos ≠
      [basePath, "sha256", (blobstore.hexEncode (sha256 blob)).take 2,
       (blobstore.hexEncode (sha256 blob)).drop 2] :=
    fun h => by simpa [blobstore.getTmpPath] using congrArg List.length h
  refine ⟨_, _, hput, rfl, rfl, hgetPath, GoMap.lookup_set_self _ _ _, ?_, ?_⟩
  · intro p b hp hb
    rw [hgetPath] at hp
    obtain rfl : _ = p := (Except.ok.injEq _ _).mp hp
    rw [GoMap.lookup_set_self] at hb
    obtain rfl : blob = b := (Option.some.injEq _ _).mp hb
    rfl
  · rw [GoMap.lookup_set_ne _ _ _ _ hne, GoMap.lookup_erase_self]

/-- Witness for C2 at a concrete input: a constant 32-byte digest function,
blob `[1, 2]`, base path `"b"`, empty filesystem, tmp nanos `0`. -/
theorem C2_blobstore_put_content_addressed_witness :
    (((fun _ : Bytes => List.replicate 32 0) [1, 2]).length = 32) ∧
    (∃ (ref : blobstore.BlobRef) (fs' : blobstore.FS),
      blobstore.put (fun _ : Bytes => List.replicate 32 0) "b" GoMap.empty 0 [1, 2] =
        .ok ⟨ref, fs', [⟨.put, ref⟩]⟩ ∧
      ref.algo = "sha256" ∧
      ref.hash = (fun _ : Bytes => List.replicate 32 0) [1, 2] ∧
      blobstore.getPath "b" ref =
        .ok ["b", "sha256",
             (blobstore.hexEncode ((fun _ : Bytes => List.replicate 32 0) [1, 2])).take 2,
             (blobstore.hexEncode ((fun _ : Bytes => List.replicate 32 0) [1, 2])).drop 2] ∧
      fs'.lookup ["b", "sha256",
             (blobstore.hexEncode ((fun _ : Bytes => List.replicate 32 0) [1, 2])).take 2,
             (blobstore.hexEncode ((fun _ : Bytes => List.replicate 32 0) [1, 2])).drop 2] =
        some [1, 2] ∧
      (∀ p b, blobstore.getPath "b" ref = .ok p → fs'.lookup p = some b →
          (fun _ : Bytes => List.replicate 32 0) b = ref.hash) ∧
      fs'.lookup (blobstore.getTmpPath "b" 0) = none) :=
  ⟨by decide,
   C2_blobstore_put_content_addressed (fun _ => List.replicate 32 0) "b"
     GoMap.empty 0 [1, 2] (by decide)⟩

/-! Section: Want manager and per-peer want processes (`blobstore/store.go`) -/

namespace blobstore

/-- Go `wantManager`: the local want set `wants` (Go: keyed by `ref.Ref()`,
value the negative want distance). -/
structure WantManager where
  wants : GoMap BlobRef Int
deriving DecidableEq, Repr

/-- Go `wantManager.Wants(ref)`: membership in the want set. -/
def WantManager.wantsRef (wm : WantManager) (r : BlobRef) : Bool :=
  (wm.wants.lookup r).isSome

/-- Go `wantManager.WantWithDist`: if `bs.Get(ref)` succeeds the blob is
already present and nothing happens; otherwise `wants[ref] = dist` is
recorded and the want is poured into the manager's broadcast.  Returns the
new manager state and the list of poured wants. -/
def WantManager.wantWithDist (basePath : String) (fs : FS) (wm : WantManager)
    (r : BlobRef) (dist : Int) : WantManager × List (BlobRef × Int) :=
  match get basePath fs r with
  | .ok _ => (wm, [])
  | .error _ => (⟨wm.wants.set r dist⟩, [(r, dist)])

/-- Go `wantManager.Want(ref) = WantWithDist(ref, -1)`. -/
def WantManager.want (basePath : String) (fs : FS) (wm : WantManager)
    (r : BlobRef) : WantManager × List (BlobRef × Int) :=
  WantManager.wantWithDist basePath fs wm r (-1)

/-- The sink that `NewWantManager` registers on the blob store's `Changes`
broadcast: a `BlobStoreOpPut` notification deletes the ref from `wants`. -/
def WantManager.onNotification (wm : WantManager) (n : BlobStoreNotification) :
    WantManager :=
  if n.op = .put then
    match wm.wants.lookup n.ref with
    | some _ => ⟨wm.wants.erase n.ref⟩
    | none => wm
  else wm

/-- Go `blobStore.Put` followed by delivery of its notifications to the want
manager's registered sink. -/
def putAndNotify (sha256 : Bytes → Bytes) (basePath : String) (fs : FS)
    (nanos : Nat) (blob : Bytes) (wm : WantManager) :
    Except String (PutResult × WantManager) :=
  match put sha256 basePath fs nanos blob with
  | .error e => .error e
  | .ok res => .ok (res, res.notifs.foldl WantManager.onNotification wm)

/-- One entry of a received `WantMsg` processed by `wantProc.Pour`,
threading `remoteWants` and the reply map `mOut`.  For `dist < 0` the local
store decides: present → answer with the size and drop the remote want;
absent (`ErrNoSuchBlob`) → record the propagated distance `dist - 1`; any
other `Size` error aborts.  For `dist ≥ 0` the proc may spawn a concurrent
`blobs.get` fetch, which touches neither map. -/
def wantProc.step (basePath : String) (fs : FS)
    (st : GoMap BlobRef Int × GoMap BlobRef Int) (e : BlobRef × Int) :
    Except StoreErr (GoMap BlobRef Int × GoMap BlobRef Int) :=
  if e.2 < 0 then
    match size basePath fs e.1 with
    | .ok s => .ok (st.1.erase e.1, st.2.set e.1 (s : Int))
    | .error .noSuchBlob => .ok (st.1.set e.1 (e.2 - 1), st.2)
    | .error err => .error err
  else
    .ok st

/-- The loop of `wantProc.Pour` over the received entries. -/
def wantProc.pourLoop (basePath : String) (fs : FS) :
    GoMap BlobRef Int → GoMap BlobRef Int → List (BlobRef × Int) →
    Except StoreErr (GoMap BlobRef Int × GoMap BlobRef Int)
  | rw, mOut, [] => .ok (rw, mOut)
  | rw, mOut, e :: rest =>
      match wantProc.step basePath fs (rw, mOut) e with
      | .error err => .error err
      | .ok st => wantProc.pourLoop basePath fs st.1 st.2 rest

/-- Go `wantProc.Pour`: processes a received want message and, only when the
reply map is non-empty, pours it to the peer. -/
def wantProc.pour (basePath : String) (fs : FS) (rw : GoMap BlobRef Int)
    (mIn : List (BlobRef × Int)) :
    Except StoreErr (GoMap BlobRef Int × Option (GoMap BlobRef Int)) :=
  match wantProc.pourLoop basePath fs rw GoMap.empty mIn with
  | .error e => .error e
  | .ok (rw', mOut) => .ok (rw', if mOut = [] then none else some mOut)

end blobstore

namespace blobstore

/-- Helper: on a 32-byte digest, `put` succeeds with the expected result. -/
theorem put_ok (sha256 : Bytes → Bytes) (basePath : String) (fs : FS)
    (nanos : Nat) (blob : Bytes) (hlen : (sha256 blob).length = 32) :
    put sha256 basePath fs nanos blob =
      .ok ⟨⟨sha256 blob, "sha256"⟩,
           (((fs.set (getTmpPath basePath nanos) blob).erase
               (getTmpPath basePath nanos)).set
             [basePath, "sha256", (hexEncode (sha256 blob)).take 2,
              (hexEncode (sha256 blob)).drop 2] blob),
           [⟨.put, ⟨sha256 blob, "sha256"⟩⟩]⟩ := by
  have hvalid : BlobRef.isValid ⟨sha256 blob, "sha256"⟩ = true := by
    simp [BlobRef.isValid, hlen]
  simp [put, getHexDirPath, getPath, hvalid]

end blobstore

/-- C4: After a successful `BlobStore.Put` whose bytes hash to `ref`, the
notification `BlobStoreOpPut ref` is broadcast and, once the want
manager's registered sink has consumed it, `ref` is no longer in the want
set. -/
theorem C4_put_removes_want
    (sha256 : Bytes → Bytes) (basePath : String) (fs : blobstore.FS)
    (nanos : Nat) (blob : Bytes) (wm : blobstore.WantManager)
    (hlen : (sha256 blob).length = 32) :
    ∃ (res : blobstore.PutResult) (wm' : blobstore.WantManager),
      blobstore.putAndNotify sha256 basePath fs nanos blob wm = .ok (res, wm') ∧
      res.ref.hash = sha256 blob ∧
      res.ref.algo = "sha256" ∧
      (⟨.put, res.ref⟩ : blobstore.BlobStoreNotification) ∈ res.notifs ∧
      wm'.wants.lookup res.ref = none ∧
      wm'.wantsRef res.ref = false := by
  have hput := blobstore.put_ok sha256 basePath fs nanos blob hlen
  have hdel : GoMap.lookup
      (blobstore.WantManager.onNotification wm ⟨.put, ⟨sha256 blob, "sha256"⟩⟩).wants
      ⟨sha256 blob, "sha256"⟩ = none := by
    unfold blobstore.WantManager.onNotification
    cases hv : wm.wants.lookup ⟨sha256 blob, "sha256"⟩ with
    | none => simpa using hv
    | some v => simpa [hv] using GoMap.lookup_erase_self wm.wants _
  refine ⟨⟨⟨sha256 blob, "sha256"⟩,
      (((fs.set (blobstore.getTmpPath basePath nanos) blob).erase
          (blobstore.getTmpPath basePath nanos)).set
        [basePath, "sha256", (blobstore.hexEncode (sha256 blob)).take 2,
         (blobstore.hexEncode (sha256 blob)).drop 2] blob),
      [⟨.put, ⟨sha256 blob, "sha256"⟩⟩]⟩,
    blobstore.WantManager.onNotification wm ⟨.put, ⟨sha256 blob, "sha256"⟩⟩,
    ?_, rfl, rfl, by simp, hdel, ?_⟩
  · simp [blobstore.putAndNotify, hput]
  · simp [blobstore.WantManager.wantsRef, hdel]

/-- Witness for C4: constant digest, blob `[3]`, a want manager that
currently wants the resulting ref. -/
theorem C4_put_removes_want_witness :
    (((fun _ : Bytes => List.replicate 32 0) [3]).length = 32) ∧
    (∃ (res : blobstore.PutResult) (wm' : blobstore.WantManager),
      blobstore.putAndNotify (fun _ : Bytes => List.replicate 32 0) "b"
          GoMap.empty 1 [3] ⟨[(⟨List.replicate 32 0, "sha256"⟩, -1)]⟩ =
        .ok (res, wm') ∧
      res.ref.hash = (fun _ : Bytes => List.replicate 32 0) [3] ∧
      res.ref.algo = "sha256" ∧
      (⟨.put, res.ref⟩ : blobstore.BlobStoreNotification) ∈ res.notifs ∧
      wm'.wants.lookup res.ref = none ∧
      wm'.wantsRef res.ref = false) :=
  ⟨by decide,
   C4_put_removes_want (fun _ => List.replicate 32 0) "b" GoMap.empty 1 [3]
     ⟨[(⟨List.replicate 32 0, "sha256"⟩, -1)]⟩ (by decide)⟩

/-- Decidable equality for `Except`, used to evaluate the embedding on
concrete inputs. -/
instance {e a : Type} [DecidableEq e] [DecidableEq a] : DecidableEq (Except e a) :=
  fun x y =>
    match x, y with
    | .ok v1, .ok v2 =>
        if h : v1 = v2 then .isTrue (congrArg Except.ok h)
        else .isFalse (fun hc => h (Except.ok.inj hc))
    | .error e1, .error e2 =>
        if h : e1 = e2 then .isTrue (congrArg Except.error h)
        else .isFalse (fun hc => h (Except.error.inj hc))
    | .ok _, .error _ => .isFalse (fun hc => Except.noConfusion hc)
    | .error _, .ok _ => .isFalse (fun hc => Except.noConfusion hc)

namespace blobstore

/-- Fixture: a valid reference whose digest is 32 zero bytes. -/
def zeroRef : BlobRef := ⟨List.replicate 32 0, "sha256"⟩

/-- Fixture: a valid reference whose digest is 32 one bytes. -/
def oneRef : BlobRef := ⟨List.replicate 32 1, "sha256"⟩

/-- Fixture: the visible path of `zeroRef` under base path `"b"`. -/
def zeroRefPath : Path :=
  ["b", "sha256", (hexEncode zeroRef.hash).take 2, (hexEncode zeroRef.hash).drop 2]

/-- Fixture: a filesystem holding exactly the blob `[5]` for `zeroRef`. -/
def fsWithZero : FS := GoMap.set GoMap.empty zeroRefPath [5]

end blobstore

/-- C10: `Want(ref)` is `WantWithDist(ref, -1)`; when the blob is already
in the local store `WantWithDist` leaves the manager untouched and
broadcasts nothing (so `Wants(ref)` stays false if it was false); only
when the blob is absent is the want recorded and broadcast. -/
theorem C10_want_frame (basePath : String) (fs : blobstore.FS)
    (wm : blobstore.WantManager) (r : blobstore.BlobRef) (dist : Int) :
    (blobstore.WantManager.want basePath fs wm r =
      blobstore.WantManager.wantWithDist basePath fs wm r (-1)) ∧
    (∀ b, blobstore.get basePath fs r = .ok b →
      blobstore.WantManager.wantWithDist basePath fs wm r dist = (wm, []) ∧
      (wm.wantsRef r = false →
        (blobstore.WantManager.wantWithDist basePath fs wm r dist).1.wantsRef r = false)) ∧
    (∀ e, blobstore.get basePath fs r = .error e →
      blobstore.WantManager.wantWithDist basePath fs wm r dist =
        (⟨wm.wants.set r dist⟩, [(r, dist)]) ∧
      (blobstore.WantManager.wantWithDist basePath fs wm r dist).1.wantsRef r = true) := by
  refine ⟨rfl, ?_, ?_⟩
  · intro b hb
    have h1 : blobstore.WantManager.wantWithDist basePath fs wm r dist = (wm, []) := by
      simp [blobstore.WantManager.wantWithDist, hb]
    exact ⟨h1, fun hw => by rw [h1]; exact hw⟩
  · intro e he
    have h1 : blobstore.WantManager.wantWithDist basePath fs wm r dist =
        (⟨wm.wants.set r dist⟩, [(r, dist)]) := by
      simp [blobstore.WantManager.wantWithDist, he]
    refine ⟨h1, ?_⟩
    rw [h1]
    simp [blobstore.WantManager.wantsRef, GoMap.lookup_set_self]

/-- Witness for C10: base path `"b"`, store holding only `zeroRef`
(present case, distance −2) and `oneRef` (absent case, distance −1),
starting from an empty want set. -/
theorem C10_want_frame_witness :
    (blobstore.WantManager.want "b" blobstore.fsWithZero ⟨GoMap.empty⟩ blobstore.zeroRef =
      blobstore.WantManager.wantWithDist "b" blobstore.fsWithZero ⟨GoMap.empty⟩
        blobstore.zeroRef (-1)) ∧
    (blobstore.WantManager.wantWithDist "b" blobstore.fsWithZero ⟨GoMap.empty⟩
        blobstore.zeroRef (-2) = (⟨GoMap.empty⟩, [])) ∧
    ((blobstore.WantManager.wantWithDist "b" blobstore.fsWithZero ⟨GoMap.empty⟩
        blobstore.zeroRef (-2)).1.wantsRef blobstore.zeroRef = false) ∧
    (blobstore.WantManager.wantWithDist "b" blobstore.fsWithZero ⟨GoMap.empty⟩
        blobstore.oneRef (-1) =
      (⟨GoMap.set GoMap.empty blobstore.oneRef (-1)⟩, [(blobstore.oneRef, -1)])) ∧
    ((blobstore.WantManager.wantWithDist "b" blobstore.fsWithZero ⟨GoMap.empty⟩
        blobstore.oneRef (-1)).1.wantsRef blobstore.oneRef = true) :=
  ⟨(C10_want_frame "b" blobstore.fsWithZero ⟨GoMap.empty⟩ blobstore.zeroRef (-2)).1,
   ((C10_want_frame "b" blobstore.fsWithZero ⟨GoMap.empty⟩ blobstore.zeroRef (-2)).2.1
      [5] (by decide)).1,
   ((C10_want_frame "b" blobstore.fsWithZero ⟨GoMap.empty⟩ blobstore.zeroRef (-2)).2.1
      [5] (by decide)).2 (by decide),
   ((C10_want_frame "b" blobstore.fsWithZero ⟨GoMap.empty⟩ blobstore.oneRef (-1)).2.2
      .noSuchBlob (by decide)).1,
   ((C10_want_frame "b" blobstore.fsWithZero ⟨GoMap.empty⟩ blobstore.oneRef (-1)).2.2
      .noSuchBlob (by decide)).2⟩

namespace blobstore

theorem pourLoop_nil (basePath : String) (fs : FS) (rw mOut : GoMap BlobRef Int) :
    wantProc.pourLoop basePath fs rw mOut [] = .ok (rw, mOut) := rfl

theorem pourLoop_cons (basePath : String) (fs : FS) (rw mOut : GoMap BlobRef Int)
    (e : BlobRef × Int) (rest : List (BlobRef × Int)) :
    wantProc.pourLoop basePath fs rw mOut (e :: rest) =
      match wantProc.step basePath fs (rw, mOut) e with
      | .error err => .error err
      | .ok st => wantProc.pourLoop basePath fs st.1 st.2 rest := rfl

theorem step_neg_ok (basePath : String) (fs : FS) (rw mOut : GoMap BlobRef Int)
    (e : BlobRef × Int) (s : Nat) (hd : e.2 < 0) (hsz : size basePath fs e.1 = .ok s) :
    wantProc.step basePath fs (rw, mOut) e = .ok (rw.erase e.1, mOut.set e.1 (s : Int)) := by
  simp [wantProc.step, hd, hsz]

theorem step_neg_missing (basePath : String) (fs : FS) (rw mOut : GoMap BlobRef Int)
    (e : BlobRef × Int) (hd : e.2 < 0)
    (hsz : size basePath fs e.1 = .error .noSuchBlob) :
    wantProc.step basePath fs (rw, mOut) e = .ok (rw.set e.1 (e.2 - 1), mOut) := by
  simp [wantProc.step, hd, hsz]

theorem step_neg_invalid (basePath : String) (fs : FS) (rw mOut : GoMap BlobRef Int)
    (e : BlobRef × Int) (hd : e.2 < 0)
    (hsz : size basePath fs e.1 = .error .invalidRef) :
    wantProc.step basePath fs (rw, mOut) e = .error .invalidRef := by
  simp [wantProc.step, hd, hsz]

theorem step_nonneg (basePath : String) (fs : FS) (rw mOut : GoMap BlobRef Int)
    (e : BlobRef × Int) (hd : ¬ e.2 < 0) :
    wantProc.step basePath fs (rw, mOut) e = .ok (rw, mOut) := by
  simp [wantProc.step, hd]

theorem size_not_invalid (basePath : String) (fs : FS) (r : BlobRef)
    (hv : r.isValid = true) : size basePath fs r ≠ .error .invalidRef := by
  simp only [size, getPath, hv, if_true]
  cases fs.lookup [basePath, r.algo, (hexEncode r.hash).take 2, (hexEncode r.hash).drop 2] <;>
    simp

/-- Entries whose keys avoid `r` leave both maps unchanged at `r`. -/
theorem pourLoop_frame (basePath : String) (fs : FS) (r : BlobRef) :
    ∀ (entries : List (BlobRef × Int)) (rw mOut rw' mOut' : GoMap BlobRef Int),
    (∀ p ∈ entries, p.1 ≠ r) →
    wantProc.pourLoop basePath fs rw mOut entries = .ok (rw', mOut') →
    rw'.lookup r = rw.lookup r ∧ mOut'.lookup r = mOut.lookup r := by
  intro entries
  induction entries with
  | nil =>
      intro rw mOut rw' mOut' _ h
      rw [pourLoop_nil] at h
      obtain ⟨rfl, rfl⟩ := (Prod.mk.injEq _ _ _ _).mp (Except.ok.inj h)
      exact ⟨rfl, rfl⟩
  | cons e rest ih =>
      intro rw mOut rw' mOut' hk h
      have hek : r ≠ e.1 := Ne.symm (hk e (List.mem_cons_self e rest))
      have hrest : ∀ p ∈ rest, p.1 ≠ r := fun p hp => hk p (List.mem_cons_of_mem e hp)
      rw [pourLoop_cons] at h
      by_cases hd : e.2 < 0
      · cases hsz : size basePath fs e.1 with
        | ok s =>
            rw [step_neg_ok basePath fs rw mOut e s hd hsz] at h
            obtain ⟨h1, h2⟩ := ih _ _ _ _ hrest h
            exact ⟨h1.trans (GoMap.lookup_erase_ne rw e.1 r hek),
                   h2.trans (GoMap.lookup_set_ne mOut e.1 r _ hek)⟩
        | error err =>
            cases err with
            | noSuchBlob =>
                rw [step_neg_missing basePath fs rw mOut e hd hsz] at h
                obtain ⟨h1, h2⟩ := ih _ _ _ _ hrest h
                exact ⟨h1.trans (GoMap.lookup_set_ne rw e.1 r _ hek), h2⟩
            | invalidRef =>
                rw [step_neg_invalid basePath fs rw mOut e hd hsz] at h
                exact Except.noConfusion h
      · rw [step_nonneg basePath fs rw mOut e hd] at h
        exact ih _ _ _ _ hrest h

/-- With valid references the loop never aborts. -/
theorem pourLoop_ok (basePath : String) (fs : FS) :
    ∀ (entries : List (BlobRef × Int)) (rw mOut : GoMap BlobRef Int),
    (∀ p ∈ entries, p.1.isValid = true) →
    ∃ rw' mOut', wantProc.pourLoop basePath fs rw mOut entries = .ok (rw', mOut') := by
  intro entries
  induction entries with
  | nil => intro rw mOut _; exact ⟨rw, mOut, rfl⟩
  | cons e rest ih =>
      intro rw mOut hv
      have hve : e.1.isValid = true := hv e (List.mem_cons_self e rest)
      have hvrest : ∀ p ∈ rest, p.1.isValid = true :=
        fun p hp => hv p (List.mem_cons_of_mem e hp)
      by_cases hd : e.2 < 0
      · cases hsz : size basePath fs e.1 with
        | ok s =>
            obtain ⟨rw', mOut', h⟩ := ih (rw.erase e.1) (mOut.set e.1 (s : Int)) hvrest
            exact ⟨rw', mOut', by rw [pourLoop_cons, step_neg_ok basePath fs rw mOut e s hd hsz]; exact h⟩
        | error err =>
            cases err with
            | noSuchBlob =>
                obtain ⟨rw', mOut', h⟩ := ih (rw.set e.1 (e.2 - 1)) mOut hvrest
                exact ⟨rw', mOut', by
                  rw [pourLoop_cons, step_neg_missing basePath fs rw mOut e hd hsz]; exact h⟩
            | invalidRef => exact absurd hsz (size_not_invalid basePath fs e.1 hve)
      · obtain ⟨rw', mOut', h⟩ := ih rw mOut hvrest
        exact ⟨rw', mOut', by rw [pourLoop_cons, step_nonneg basePath fs rw mOut e hd]; exact h⟩

/-- An answerable want (negative distance, blob present with size `s`)
ends with the reply recorded and the remote want dropped. -/
theorem pourLoop_answered (basePath : String) (fs : FS) (r : BlobRef) (d : Int) (s : Nat) :
    ∀ (entries : List (BlobRef × Int)) (rw mOut rw' mOut' : GoMap BlobRef Int),
    (entries.map Prod.fst).Nodup →
    (r, d) ∈ entries → d < 0 → size basePath fs r = .ok s →
    wantProc.pourLoop basePath fs rw mOut entries = .ok (rw', mOut') →
    rw'.lookup r = none ∧ mOut'.lookup r = some (s : Int) := by
  intro entries
  induction entries with
  | nil => intro rw mOut rw' mOut' _ hmem; exact absurd hmem (List.not_mem_nil _)
  | cons e rest ih =>
      intro rw mOut rw' mOut' hnd hmem hd hsz h
      rw [pourLoop_cons] at h
      rcases List.mem_cons.mp hmem with heq | hmem'
      · subst heq
        rw [step_neg_ok basePath fs rw mOut (r, d) s hd hsz] at h
        have hk : ∀ p ∈ rest, p.1 ≠ r := by
          intro p hp hpr
          have hmm : p.1 ∈ rest.map Prod.fst := List.mem_map_of_mem Prod.fst hp
          rw [hpr] at hmm
          exact (List.nodup_cons.mp hnd).1 hmm
        obtain ⟨h1, h2⟩ := pourLoop_frame basePath fs r rest _ _ rw' mOut' hk h
        exact ⟨h1.trans (GoMap.lookup_erase_self rw r),
               h2.trans (GoMap.lookup_set_self mOut r _)⟩
      · have hnd' : (rest.map Prod.fst).Nodup := (List.nodup_cons.mp hnd).2
        by_cases hd2 : e.2 < 0
        · cases hsz2 : size basePath fs e.1 with
          | ok s2 =>
              rw [step_neg_ok basePath fs rw mOut e s2 hd2 hsz2] at h
              exact ih _ _ _ _ hnd' hmem' hd hsz h
          | error err =>
              cases err with
              | noSuchBlob =>
                  rw [step_neg_missing basePath fs rw mOut e hd2 hsz2] at h
                  exact ih _ _ _ _ hnd' hmem' hd hsz h
              | invalidRef =>
                  rw [step_neg_invalid basePath fs rw mOut e hd2 hsz2] at h
                  exact Except.noConfusion h
        · rw [step_nonneg basePath fs rw mOut e hd2] at h
          exact ih _ _ _ _ hnd' hmem' hd hsz h

/-- An unanswerable want (negative distance, `ErrNoSuchBlob`) ends with
the propagated distance `d - 1` recorded in `remoteWants`. -/
theorem pourLoop_missing (basePath : String) (fs : FS) (r : BlobRef) (d : Int) :
    ∀ (entries : List (BlobRef × Int)) (rw mOut rw' mOut' : GoMap BlobRef Int),
    (entries.map Prod.fst).Nodup →
    (r, d) ∈ entries → d < 0 → size basePath fs r = .error .noSuchBlob →
    wantProc.pourLoop basePath fs rw mOut entries = .ok (rw', mOut') →
    rw'.lookup r = some (d - 1) := by
  intro entries
  induction entries with
  | nil => intro rw mOut rw' mOut' _ hmem; exact absurd hmem (List.not_mem_nil _)
  | cons e rest ih =>
      intro rw mOut rw' mOut' hnd hmem hd hsz h
      rw [pourLoop_cons] at h
      rcases List.mem_cons.mp hmem with heq | hmem'
      · subst heq
        rw [step_neg_missing basePath fs rw mOut (r, d) hd hsz] at h
        have hk : ∀ p ∈ rest, p.1 ≠ r := by
          intro p hp hpr
          have hmm : p.1 ∈ rest.map Prod.fst := List.mem_map_of_mem Prod.fst hp
          rw [hpr] at hmm
          exact (List.nodup_cons.mp hnd).1 hmm
        obtain ⟨h1, _⟩ := pourLoop_frame basePath fs r rest _ _ rw' mOut' hk h
        exact h1.trans (GoMap.lookup_set_self rw r _)
      · have hnd' : (rest.map Prod.fst).Nodup := (List.nodup_cons.mp hnd).2
        by_cases hd2 : e.2 < 0
        · cases hsz2 : size basePath fs e.1 with
          | ok s2 =>
              rw [step_neg_ok basePath fs rw mOut e s2 hd2 hsz2] at h
              exact ih _ _ _ _ hnd' hmem' hd hsz h
          | error err =>
              cases err with
              | noSuchBlob =>
                  rw [step_neg_missing basePath fs rw mOut e hd2 hsz2] at h
                  exact ih _ _ _ _ hnd' hmem' hd hsz h
              | invalidRef =>
                  rw [step_neg_invalid basePath fs rw mOut e hd2 hsz2] at h
                  exact Except.noConfusion h
        · rw [step_nonneg basePath fs rw mOut e hd2] at h
          exact ih _ _ _ _ hnd' hmem' hd hsz h

/-- If no entry is answerable, the reply map is left exactly as it began. -/
theorem pourLoop_silent (basePath : String) (fs : FS) :
    ∀ (entries : List (BlobRef × Int)) (rw mOut rw' mOut' : GoMap BlobRef Int),
    (∀ p ∈ entries, p.2 < 0 → ∀ s, size basePath fs p.1 ≠ .ok s) →
    wantProc.pourLoop basePath fs rw mOut entries = .ok (rw', mOut') →
    mOut' = mOut := by
  intro entries
  induction entries with
  | nil =>
      intro rw mOut rw' mOut' _ h
      rw [pourLoop_nil] at h
      obtain ⟨_, rfl⟩ := (Prod.mk.injEq _ _ _ _).mp (Except.ok.inj h)
      rfl
  | cons e rest ih =>
      intro rw mOut rw' mOut' hno h
      have hnorest : ∀ p ∈ rest, p.2 < 0 → ∀ s, size basePath fs p.1 ≠ .ok s :=
        fun p hp => hno p (List.mem_cons_of_mem e hp)
      rw [pourLoop_cons] at h
      by_cases hd : e.2 < 0
      · cases hsz : size basePath fs e.1 with
        | ok s => exact absurd hsz (hno e (List.mem_cons_self e rest) hd s)
        | error err =>
            cases err with
            | noSuchBlob =>
                rw [step_neg_missing basePath fs rw mOut e hd hsz] at h
                exact ih _ _ _ _ hnorest h
            | invalidRef =>
                rw [step_neg_invalid basePath fs rw mOut e hd hsz] at h
                exact Except.noConfusion h
      · rw [step_nonneg basePath fs rw mOut e hd] at h
        exact ih _ _ _ _ hnorest h

end blobstore

/-- C3: For a received want message (valid refs, one entry per ref, as
produced by `WantMsg` JSON decoding): an entry `{ref: dist}` with
`dist < 0` whose blob the local store holds yields a reply entry
`{ref: size}` with the blob's non-negative size and removes `ref` from
`remoteWants`; an entry whose blob is absent sets
`remoteWants[ref] = dist - 1`; and if no entry is answerable from the
local store, no reply message is sent at all. -/
theorem C3_wantProc_pour_spec (basePath : String) (fs : blobstore.FS)
    (rw : GoMap blobstore.BlobRef Int) (mIn : List (blobstore.BlobRef × Int))
    (hvalid : ∀ p ∈ mIn, p.1.isValid = true)
    (hnodup : (mIn.map Prod.fst).Nodup) :
    ∃ rw' out, blobstore.wantProc.pour basePath fs rw mIn = .ok (rw', out) ∧
      (∀ r d s, (r, d) ∈ mIn → d < 0 → blobstore.size basePath fs r = .ok s →
        rw'.lookup r = none ∧
        ∃ o, out = some o ∧ o.lookup r = some (s : Int) ∧ 0 ≤ (s : Int)) ∧
      (∀ r d, (r, d) ∈ mIn → d < 0 →
        blobstore.size basePath fs r = .error .noSuchBlob →
        rw'.lookup r = some (d - 1)) ∧
      ((∀ r d, (r, d) ∈ mIn → d < 0 → ∀ s, blobstore.size basePath fs r ≠ .ok s) →
        out = none) := by
  obtain ⟨rwF, mOutF, hloop⟩ := blobstore.pourLoop_ok basePath fs mIn rw GoMap.empty hvalid
  refine ⟨rwF, if mOutF = [] then none else some mOutF, ?_, ?_, ?_, ?_⟩
  · simp [blobstore.wantProc.pour, hloop]
  · intro r d s hmem hd hsz
    obtain ⟨h1, h2⟩ :=
      blobstore.pourLoop_answered basePath fs r d s mIn rw GoMap.empty rwF mOutF
        hnodup hmem hd hsz hloop
    have hne : mOutF ≠ [] := by
      intro hE
      rw [hE] at h2
      exact Option.noConfusion h2
    refine ⟨h1, mOutF, by simp [hne], h2, by exact_mod_cast Nat.zero_le s⟩
  · intro r d hmem hd hsz
    exact blobstore.pourLoop_missing basePath fs r d mIn rw GoMap.empty rwF mOutF
      hnodup hmem hd hsz hloop
  · intro hno
    have hsil := blobstore.pourLoop_silent basePath fs mIn rw GoMap.empty rwF mOutF
      (fun p hp hd s => hno p.1 p.2 hp hd s) hloop
    simp [hsil, GoMap.empty]

/-- Witness for C3: store holding only `zeroRef`'s blob; one answerable
want entry `(zeroRef, -1)` and one unanswerable `(oneRef, -2)`. -/
theorem C3_wantProc_pour_spec_witness :
    (∀ p ∈ [(blobstore.zeroRef, (-1 : Int)), (blobstore.oneRef, -2)],
        p.1.isValid = true) ∧
    (([(blobstore.zeroRef, (-1 : Int)), (blobstore.oneRef, -2)].map Prod.fst).Nodup) ∧
    (∃ rw' out,
      blobstore.wantProc.pour "b" blobstore.fsWithZero GoMap.empty
          [(blobstore.zeroRef, (-1 : Int)), (blobstore.oneRef, -2)] = .ok (rw', out) ∧
      (∀ r d s, (r, d) ∈ [(blobstore.zeroRef, (-1 : Int)), (blobstore.oneRef, -2)] →
        d < 0 → blobstore.size "b" blobstore.fsWithZero r = .ok s →
        rw'.lookup r = none ∧
        ∃ o, out = some o ∧ o.lookup r = some (s : Int) ∧ 0 ≤ (s : Int)) ∧
      (∀ r d, (r, d) ∈ [(blobstore.zeroRef, (-1 : Int)), (blobstore.oneRef, -2)] →
        d < 0 → blobstore.size "b" blobstore.fsWithZero r = .error .noSuchBlob →
        rw'.lookup r = some (d - 1)) ∧
      ((∀ r d, (r, d) ∈ [(blobstore.zeroRef, (-1 : Int)), (blobstore.oneRef, -2)] →
        d < 0 → ∀ s, blobstore.size "b" blobstore.fsWithZero r ≠ .ok s) →
        out = none)) :=
  ⟨by decide, by decide,
   C3_wantProc_pour_spec "b" blobstore.fsWithZero GoMap.empty
     [(blobstore.zeroRef, -1), (blobstore.oneRef, -2)] (by decide) (by decide)⟩

/-! Section: Replicator (`sbot/replicate.go`) -/

namespace sbot

/-- Feed references, by their encoded string form (`ref.Ref()`). -/
abbrev FeedRef := String

/-- Go `ssb.StrFeedSet`.  Modelled from the spec: the set implementation is
not under src/; per the spec the Replicator maintains two mutable *sets*
of feed references.  Represented as a list queried up to membership. -/
abbrev StrFeedSet := List FeedRef

/-- Go `StrFeedSet.Has`. -/
def StrFeedSet.has (s : StrFeedSet) (r : FeedRef) : Bool := decide (r ∈ s)

/-- Go `StrFeedSet.AddRef`: set insertion. -/
def StrFeedSet.addRef (s : StrFeedSet) (r : FeedRef) : StrFeedSet :=
  if r ∈ s then s else r :: s

/-- Go `StrFeedSet.Delete`: set removal. -/
def StrFeedSet.delete (s : StrFeedSet) (r : FeedRef) : StrFeedSet :=
  s.filter (fun x => decide (x ≠ r))

/-- The `lister` of `sbot/replicate.go`: the replicator's `feedWants` and
`blocked` sets. -/
structure Lister where
  feedWants : StrFeedSet
  blocked : StrFeedSet

/-- Go `lister.Authorize`: denied when blocked, ok when in `feedWants`,
denied otherwise. -/
def lister.authorize (l : Lister) (remote : FeedRef) : Except String Unit :=
  if StrFeedSet.has l.blocked remote then .error "peer blocked"
  else if StrFeedSet.has l.feedWants remote then .ok ()
  else .error "nope - access denied"

/-- One successful run of the closure built by `replicator.makeUpdater`:
`AddRef` every feed of `builder.Hops(self, hopCount)` into `feedWants`
(WITHOUT clearing it first), replace `blocked` by `g.BlockedList(self)`,
then `Delete` every blocked feed from `feedWants`. -/
def replicator.updateLister (l : Lister) (hopsList blockedList : List FeedRef) : Lister :=
  let fw1 := hopsList.foldl StrFeedSet.addRef l.feedWants
  let fw2 := blockedList.foldl StrFeedSet.delete fw1
  ⟨fw2, blockedList⟩

theorem mem_addRef (s : StrFeedSet) (r x : FeedRef) :
    x ∈ StrFeedSet.addRef s r ↔ x ∈ s ∨ x = r := by
  by_cases hr : r ∈ s
  · simp only [StrFeedSet.addRef, if_pos hr]
    exact ⟨Or.inl, fun h => h.elim id (fun hx => hx ▸ hr)⟩
  · simp [StrFeedSet.addRef, hr, List.mem_cons, or_comm]

theorem mem_foldl_addRef (hops : List FeedRef) :
    ∀ (s : StrFeedSet) (x : FeedRef),
    x ∈ hops.foldl StrFeedSet.addRef s ↔ x ∈ s ∨ x ∈ hops := by
  induction hops with
  | nil => intro s x; simp
  | cons h t ih =>
      intro s x
      rw [List.foldl_cons, ih, mem_addRef]
      simp [List.mem_cons]
      tauto

theorem mem_delete (s : StrFeedSet) (r x : FeedRef) :
    x ∈ StrFeedSet.delete s r ↔ x ∈ s ∧ x ≠ r := by
  simp [StrFeedSet.delete, List.mem_filter]

theorem mem_foldl_delete (blk : List FeedRef) :
    ∀ (s : StrFeedSet) (x : FeedRef),
    x ∈ blk.foldl StrFeedSet.delete s ↔ x ∈ s ∧ x ∉ blk := by
  induction blk with
  | nil => intro s x; simp
  | cons h t ih =>
      intro s x
      rw [List.foldl_cons, ih, mem_delete]
      simp [List.mem_cons]
      tauto

theorem authorize_ok_iff (l : Lister) (x : FeedRef) :
    lister.authorize l x = .ok () ↔ (x ∈ l.feedWants ∧ x ∉ l.blocked) := by
  by_cases hb : x ∈ l.blocked <;> by_cases hw : x ∈ l.feedWants <;>
    simp [lister.authorize, StrFeedSet.has, hb, hw]

end sbot

/-- C1 counterexample: the updater only ADDS the hop set to `feedWants`
and never clears stale entries.  Starting from `feedWants = {F}` with an
empty hop result and nothing blocked, the recomputation leaves `F`
authorized even though `F ∉ hops \ blocked`, so
`Authorize(x) ↔ x ∈ hops(self, hopCount) \ blocked` fails. -/
theorem C1_replicator_authorize_counterexample :
    sbot.lister.authorize
      (sbot.replicator.updateLister ⟨["F"], []⟩ [] []) "F" = .ok () ∧
    ¬ ("F" ∈ ([] : List String) ∧ "F" ∉ ([] : List String)) := by
  constructor
  · rfl
  · intro h
    exact absurd h.1 (List.not_mem_nil _)

/-- C1 amended: after a debounced recomputation with hop set `hops` and
block list `blk`, `Authorize(x)` is ok iff `x` was already wanted or is
in the hop range, and is not blocked; every blocked feed is denied with
the "peer blocked" error, and the blocked set equals the recomputed block
list.  (`feedWants` may keep stale feeds outside the current hop range;
the spec's exact-hop-range characterization fails, see the
counterexample.) -/
theorem C1_replicator_authorize_amended (l : sbot.Lister)
    (hops blk : List sbot.FeedRef) (x : sbot.FeedRef) :
    (sbot.lister.authorize (sbot.replicator.updateLister l hops blk) x = .ok () ↔
      ((x ∈ l.feedWants ∨ x ∈ hops) ∧ x ∉ blk)) ∧
    (x ∈ blk →
      sbot.lister.authorize (sbot.replicator.updateLister l hops blk) x =
        .error "peer blocked") ∧
    (sbot.replicator.updateLister l hops blk).blocked = blk := by
  have hfw : ∀ y, y ∈ (sbot.replicator.updateLister l hops blk).feedWants ↔
      ((y ∈ l.feedWants ∨ y ∈ hops) ∧ y ∉ blk) := by
    intro y
    simp [sbot.replicator.updateLister, sbot.mem_foldl_delete, sbot.mem_foldl_addRef]
  refine ⟨?_, ?_, rfl⟩
  · rw [sbot.authorize_ok_iff, hfw x]
    show ((x ∈ l.feedWants ∨ x ∈ hops) ∧ x ∉ blk) ∧ x ∉ blk ↔ _
    tauto
  · intro hb
    simp [sbot.lister.authorize, sbot.replicator.updateLister, sbot.StrFeedSet.has, hb]

/-- Witness for C1's amended theorem: `l = ⟨["A"], []⟩`, hops `["B"]`,
blocked `["C"]`: `B` is authorized, blocked `C` is denied. -/
theorem C1_replicator_authorize_amended_witness :
    ((sbot.lister.authorize
        (sbot.replicator.updateLister ⟨["A"], []⟩ ["B"] ["C"]) "B" = .ok ()) ∧
     ("C" ∈ (["C"] : List String)) ∧
     (sbot.lister.authorize
        (sbot.replicator.updateLister ⟨["A"], []⟩ ["B"] ["C"]) "C" =
       .error "peer blocked")) :=
  ⟨(C1_replicator_authorize_amended ⟨["A"], []⟩ ["B"] ["C"] "B").1.mpr
     (by exact ⟨Or.inr (by decide), by decide⟩),
   by decide,
   (C1_replicator_authorize_amended ⟨["A"], []⟩ ["B"] ["C"] "C").2.1 (by decide)⟩

/-! Section: UserFeeds sink (`multilogs/userfeeds.go`) -/

namespace multilogs

/-- A value read from the root log, as seen through Go's dynamic typing
in `UserFeedsUpdate`: an error value (nulled sentinel or not), a message
with its (possibly nil) author, or a value of an unexpected type. -/
inductive LogValue
  | errValue (nulled : Bool) (msg : String)
  | message (author : Option String)
  | badType

/-- A multilog: author address → sublog of receive-sequences. -/
abbrev MultiLog := GoMap String (List Nat)

/-- Go `UserFeedsUpdate` from `multilogs/userfeeds.go`: a nulled error value
is skipped (success, no change); any other error value is returned as the
error; a message's receive-sequence is appended to its author's sublog. -/
def UserFeedsUpdate (seq : Nat) (value : LogValue) (mlog : MultiLog) :
    Except String MultiLog :=
  match value with
  | .errValue nulled msg => if nulled then .ok mlog else .error msg
  | .badType => .error "error casting message"
  | .message none => .error "nil author on message"
  | .message (some author) =>
      let sub := (mlog.lookup author).getD []
      .ok (mlog.set author (sub ++ [seq]))

end multilogs

/-- C6: An entry whose value is the `Nulled` sentinel error makes the
UserFeeds sink return success with the multilog untouched (a skip, not an
error); an entry whose value is any other error makes it return exactly
that error, again without modifying any sublog. -/
theorem C6_userfeeds_nulled_skipped (seq : Nat) (mlog : multilogs.MultiLog)
    (msg : String) :
    multilogs.UserFeedsUpdate seq (.errValue true msg) mlog = .ok mlog ∧
    multilogs.UserFeedsUpdate seq (.errValue false msg) mlog = .error msg :=
  ⟨rfl, rfl⟩

/-! Section: Manifest (`sbot/manifest.go`) and registered plugins -/

namespace sbot

/-- The hardcoded `manifestBlob` of `sbot/manifest.go`, flattened to
(method path, kind) pairs.  (`multiserverNet` is an empty object and
contributes no methods.) -/
def manifestEntries : GoMap (List String) String := [
  (["auth"], "async"), (["address"], "sync"), (["manifest"], "sync"),
  (["get"], "async"), (["createFeedStream"], "source"),
  (["createUserStream"], "source"), (["createWriteStream"], "sink"),
  (["links"], "source"), (["add"], "async"), (["getLatest"], "async"),
  (["latest"], "source"), (["latestSequence"], "async"),
  (["createSequenceStream"], "source"), (["createLogStream"], "source"),
  (["messagesByType"], "source"), (["createHistoryStream"], "source"),
  (["ebt", "replicate"], "duplex"),
  (["partialReplication", "getFeed"], "source"),
  (["partialReplication", "getFeedReverse"], "source"),
  (["partialReplication", "getTangle"], "async"),
  (["partialReplication", "getMessagesOfType"], "source"),
  (["private", "read"], "source"), (["tangles"], "source"),
  (["names", "get"], "async"), (["names", "getImageFor"], "async"),
  (["names", "getSignifier"], "async"),
  (["friends", "isFollowing"], "async"), (["friends", "isBlocking"], "async"),
  (["publish"], "async"), (["whoami"], "sync"), (["status"], "sync"),
  (["gossip", "connect"], "async"), (["gossip", "ping"], "duplex"),
  (["replicate", "upto"], "source"),
  (["blobs", "get"], "source"), (["blobs", "add"], "sink"),
  (["blobs", "rm"], "async"), (["blobs", "ls"], "source"),
  (["blobs", "has"], "async"), (["blobs", "size"], "async"),
  (["blobs", "want"], "async"), (["blobs", "createWants"], "source")]

/-- The async methods the groups plugin registers on its handler mux
(`plugins/groups`, registered on the bot's master mux by `initSbot`). -/
def groupsPluginMethods : List (List String) :=
  [["groups", "create"], ["groups", "publishTo"], ["groups", "invite"]]

end sbot

/-- C7 counterexample: `groups.create` is registered on the bot's master
mux by the groups plugin, yet the hardcoded manifest has no entry for it
(nor for `friends.hops`), so the manifest does not enumerate every
registered RPC method. -/
theorem C7_manifest_counterexample :
    (["groups", "create"] ∈ sbot.groupsPluginMethods) ∧
    GoMap.lookup sbot.manifestEntries ["groups", "create"] = none ∧
    GoMap.lookup sbot.manifestEntries ["friends", "hops"] = none := by
  refine ⟨by decide, by decide, by decide⟩

/-- C7 amended: the manifest sync call returns the fixed, hardcoded map of
methods and kinds; it covers the core surface (history streams, get,
publish, whoami, friends.isFollowing/isBlocking, names, private.read,
replicate.upto, tangles and the blobs family) but omits some registered
methods — in particular all of groups.create/publishTo/invite and
friends.hops. -/
theorem C7_manifest_amended :
    (∀ m ∈ sbot.groupsPluginMethods, GoMap.lookup sbot.manifestEntries m = none) ∧
    GoMap.lookup sbot.manifestEntries ["friends", "hops"] = none ∧
    GoMap.lookup sbot.manifestEntries ["createHistoryStream"] = some "source" ∧
    GoMap.lookup sbot.manifestEntries ["get"] = some "async" ∧
    GoMap.lookup sbot.manifestEntries ["publish"] = some "async" ∧
    GoMap.lookup sbot.manifestEntries ["whoami"] = some "sync" ∧
    GoMap.lookup sbot.manifestEntries ["manifest"] = some "sync" ∧
    GoMap.lookup sbot.manifestEntries ["friends", "isFollowing"] = some "async" ∧
    GoMap.lookup sbot.manifestEntries ["friends", "isBlocking"] = some "async" ∧
    GoMap.lookup sbot.manifestEntries ["names", "getSignifier"] = some "async" ∧
    GoMap.lookup sbot.manifestEntries ["private", "read"] = some "source" ∧
    GoMap.lookup sbot.manifestEntries ["replicate", "upto"] = some "source" ∧
    GoMap.lookup sbot.manifestEntries ["tangles"] = some "source" ∧
    (∀ k ∈ ["get", "add", "rm", "ls", "has", "size", "want", "createWants"],
      (GoMap.lookup sbot.manifestEntries ["blobs", k]).isSome = true) := by
  refine ⟨by decide, by decide, by decide, by decide, by decide, by decide,
    by decide, by decide, by decide, by decide, by decide, by decide,
    by decide, by decide⟩

/-! Section: Name resolution (`plugins2/names/getSignifier.go`) -/

namespace names

/-- The name record of an about target: the self-chosen name and the
names prescribed by other authors (Go: a map iterated in arbitrary order;
the model picks the first). -/
structure AboutName where
  chosen : String
  prescribed : List String
deriving DecidableEq, Repr

/-- What `aboutStore.CollectedFor` yields for a feed: its name record. -/
structure AboutInfo where
  name : AboutName
deriving DecidableEq, Repr

/-- Go `hGetSignifier.HandleAsync`, applied to the result of
`as.CollectedFor(ref)` and the fallback `ref.Ref()` string: chosen name
first, else some prescribed name, else the ref itself. -/
def hGetSignifier (collected : Except String AboutInfo) (refStr : String) :
    Except String String :=
  match collected with
  | .error e => .error ("do not have about for: " ++ refStr ++ ": " ++ e)
  | .ok ai =>
      let name1 := ai.name.chosen
      let name2 := if name1 = "" then ai.name.prescribed.headD "" else name1
      let name3 := if name2 = "" then refStr else name2
      .ok name3

end names

/-- C8: whenever the about record of a feed has a non-empty self-chosen
name, `getSignifier` returns that chosen name, whatever names other
authors prescribed and whatever the fallback ref string is. -/
theorem C8_getSignifier_chosen_wins (collected : Except String names.AboutInfo)
    (ai : names.AboutInfo) (refStr : String)
    (hok : collected = .ok ai) (hne : ai.name.chosen ≠ "") :
    names.hGetSignifier collected refStr = .ok ai.name.chosen := by
  subst hok
  simp [names.hGetSignifier, hne]

/-- Witness for C8: chosen name `"N1"` by the feed itself, prescribed
`"N2"` by another author; the chosen name wins. -/
theorem C8_getSignifier_chosen_wins_witness :
    ((Except.ok ⟨⟨"N1", ["N2"]⟩⟩ : Except String names.AboutInfo) =
      .ok ⟨⟨"N1", ["N2"]⟩⟩) ∧
    (("N1" : String) ≠ "") ∧
    names.hGetSignifier (.ok ⟨⟨"N1", ["N2"]⟩⟩) "@A.ed25519" = .ok "N1" :=
  ⟨rfl, by decide,
   C8_getSignifier_chosen_wins (.ok ⟨⟨"N1", ["N2"]⟩⟩) ⟨⟨"N1", ["N2"]⟩⟩
     "@A.ed25519" rfl (by decide)⟩

/-! Section: Legacy message signing (`message/legacy/types.go`) -/

namespace legacy

/-- Go `LegacyMessage` from `message/legacy/types.go`: the unsigned message
in its canonical field order.  `content` stands in for the opaque
`interface{}` value; `Sign` never inspects the fields. -/
structure LegacyMessage where
  previous : Option String
  author : String
  sequence : Int
  timestamp : Int
  hash : String
  content : String
deriving DecidableEq, Repr

/-- Go `SignedLegacyMessage`: the message plus the encoded signature. -/
structure SignedLegacyMessage where
  legacy : LegacyMessage
  signature : String
deriving DecidableEq, Repr

/-- The algorithm constant `refs.RefAlgoMessageSSB1` of the returned
`MessageRef` (the claim's "ssb-v1"). -/
inductive MsgRefAlgo
  | ssb_v1
deriving DecidableEq, Repr

/-- Go `refs.MessageRef`: hash bytes and algorithm. -/
structure MessageRef where
  hash : Bytes
  algo : MsgRefAlgo
deriving DecidableEq, Repr

/-- Go `jsonAndPreserve`: JSON-encode, then re-encode with the v8-style
order-preserving pretty-printer `EncodePreserveOrder` (repository code
not under src/, taken as a parameter). -/
def jsonAndPreserve {A : Type} (jsonEnc : A → Bytes)
    (encodePreserveOrder : Bytes → Except String Bytes) (msg : A) :
    Except String Bytes :=
  encodePreserveOrder (jsonEnc msg)

/-- Go `LegacyMessage.Sign`, over abstract primitives: canonicalize the
unsigned message; when an HMAC secret is configured, replace the
to-be-signed bytes by `auth.Sum(pp, secret)`; Ed25519-sign; canonicalize
the signed message; apply the `InternalV8Binary` escape transform; the
MessageRef is the SHA-256 of that, with algorithm
`refs.RefAlgoMessageSSB1`.  Returns the ref and the canonical signed
bytes. -/
def LegacyMessage.sign
    (jsonLegacy : LegacyMessage → Bytes)
    (jsonSigned : SignedLegacyMessage → Bytes)
    (encodePreserveOrder : Bytes → Except String Bytes)
    (internalV8Binary : Bytes → Except String Bytes)
    (authSum : Bytes → Bytes → Bytes)
    (ed25519Sign : Bytes → Bytes → Bytes)
    (encodeSignature : Bytes → String)
    (sha256 : Bytes → Bytes)
    (msg : LegacyMessage) (priv : Bytes) (hmacSecret : Option Bytes) :
    Except String (MessageRef × Bytes) :=
  match jsonAndPreserve jsonLegacy encodePreserveOrder msg with
  | .error e => .error e
  | .ok pp0 =>
      let pp := match hmacSecret with
                | some k => authSum pp0 k
                | none => pp0
      let sig := ed25519Sign priv pp
      let signedMsg : SignedLegacyMessage := ⟨msg, encodeSignature sig⟩
      match jsonAndPreserve jsonSigned encodePreserveOrder signedMsg with
      | .error e => .error e
      | .ok ppWithSig =>
          match internalV8Binary ppWithSig with
          | .error e => .error e
          | .ok v8warp => .ok (⟨sha256 v8warp, .ssb_v1⟩, ppWithSig)

/-- The signing and hashing rule as the spec words it (§4.1): canonical
bytes of the unsigned message; if an HMAC key is configured the
to-be-signed value is `HMAC(hmac_key, canonical_bytes)`; sign with
Ed25519; serialize the signed message through the same canonicalizer,
pass it through the escape transform used for hashing, then SHA-256; the
result forms the MessageRef. -/
def specLegacySignedRef
    (jsonLegacy : LegacyMessage → Bytes)
    (jsonSigned : SignedLegacyMessage → Bytes)
    (encodePreserveOrder : Bytes → Except String Bytes)
    (internalV8Binary : Bytes → Except String Bytes)
    (authSum : Bytes → Bytes → Bytes)
    (ed25519Sign : Bytes → Bytes → Bytes)
    (encodeSignature : Bytes → String)
    (sha256 : Bytes → Bytes)
    (msg : LegacyMessage) (priv : Bytes) (hmacSecret : Option Bytes) :
    Except String (MessageRef × Bytes) :=
  match encodePreserveOrder (jsonLegacy msg) with
  | .error e => .error e
  | .ok canonical =>
      let toBeSigned := match hmacSecret with
                        | some k => authSum canonical k
                        | none => canonical
      let sig := encodeSignature (ed25519Sign priv toBeSigned)
      match encodePreserveOrder (jsonSigned ⟨msg, sig⟩) with
      | .error e => .error e
      | .ok signedBytes =>
          match internalV8Binary signedBytes with
          | .error e => .error e
          | .ok escaped => .ok (⟨sha256 escaped, .ssb_v1⟩, signedBytes)

end legacy

/-- C5: `LegacyMessage.Sign` implements exactly the spec's signing rule —
Ed25519 over the canonical bytes of the unsigned message (replaced by
`HMAC(hmac_key, canonical_bytes)` when an HMAC key is configured), and a
returned MessageRef that is the SHA-256 of the escape-transformed
canonical signed message, with algorithm `refs.RefAlgoMessageSSB1`
("ssb-v1"). -/
theorem C5_legacy_sign_spec
    (jsonLegacy : legacy.LegacyMessage → Bytes)
    (jsonSigned : legacy.SignedLegacyMessage → Bytes)
    (encodePreserveOrder : Bytes → Except String Bytes)
    (internalV8Binary : Bytes → Except String Bytes)
    (authSum : Bytes → Bytes → Bytes)
    (ed25519Sign : Bytes → Bytes → Bytes)
    (encodeSignature : Bytes → String)
    (sha256 : Bytes → Bytes)
    (msg : legacy.LegacyMessage) (priv : Bytes) (hmacSecret : Option Bytes) :
    (legacy.LegacyMessage.sign jsonLegacy jsonSigned encodePreserveOrder
        internalV8Binary authSum ed25519Sign encodeSignature sha256
        msg priv hmacSecret =
      legacy.specLegacySignedRef jsonLegacy jsonSigned encodePreserveOrder
        internalV8Binary authSum ed25519Sign encodeSignature sha256
        msg priv hmacSecret) ∧
    (∀ ref pp,
      legacy.LegacyMessage.sign jsonLegacy jsonSigned encodePreserveOrder
          internalV8Binary authSum ed25519Sign encodeSignature sha256
          msg priv hmacSecret = .ok (ref, pp) →
      ref.algo = .ssb_v1) := by
  constructor
  · rfl
  · intro ref pp h
    unfold legacy.LegacyMessage.sign legacy.jsonAndPreserve at h
    split at h
    · exact Except.noConfusion h
    · dsimp only at h
      split at h
      · exact Except.noConfusion h
      · split at h
        · exact Except.noConfusion h
        · obtain ⟨hr, _⟩ := Prod.mk.injEq _ _ _ _ |>.mp (Except.ok.inj h)
          rw [← hr]

/-- Witness for C5 at concrete primitives (identity canonicalizer and
escape, constant encoders): the pipeline returns algorithm `ssb_v1`. -/
theorem C5_legacy_sign_spec_witness :
    (legacy.LegacyMessage.sign (fun _ => [1]) (fun _ => [2]) .ok .ok
        (fun b _ => b) (fun _ _ => [3]) (fun _ => "sig") (fun b => b)
        ⟨none, "a", 1, 0, "sha256", "c"⟩ [] none =
      legacy.specLegacySignedRef (fun _ => [1]) (fun _ => [2]) .ok .ok
        (fun b _ => b) (fun _ _ => [3]) (fun _ => "sig") (fun b => b)
        ⟨none, "a", 1, 0, "sha256", "c"⟩ [] none) ∧
    (legacy.LegacyMessage.sign (fun _ => [1]) (fun _ => [2]) .ok .ok
        (fun b _ => b) (fun _ _ => [3]) (fun _ => "sig") (fun b => b)
        ⟨none, "a", 1, 0, "sha256", "c"⟩ [] none =
      .ok (⟨[2], .ssb_v1⟩, [2])) ∧
    ((⟨[2], .ssb_v1⟩ : legacy.MessageRef).algo = .ssb_v1) :=
  ⟨(C5_legacy_sign_spec (fun _ => [1]) (fun _ => [2]) .ok .ok
      (fun b _ => b) (fun _ _ => [3]) (fun _ => "sig") (fun b => b)
      ⟨none, "a", 1, 0, "sha256", "c"⟩ [] none).1,
   rfl,
   (C5_legacy_sign_spec (fun _ => [1]) (fun _ => [2]) .ok .ok
      (fun b _ => b) (fun _ _ => [3]) (fun _ => "sig") (fun b => b)
      ⟨none, "a", 1, 0, "sha256", "c"⟩ [] none).2 ⟨[2], .ssb_v1⟩ [2] rfl⟩
